import Mathlib

/-!
Verification development for the tympanic-membrane perforation analysis script
(`analyze_simulation.py`).  The script's computational core is shallowly
embedded below: pandas rows become Lean structures, Python floats become `ℚ`
(the data are finite decimals), Python strings become `List Char`, and the
float values NaN (mean of an empty selection) and `float('inf')` (the
matcher's initial running minimum) are both modelled by `Option ℚ` with
`none` for the missing / infinite value.  Python's `NaN < x` comparison is
always false, which is mirrored by the `none` case of the scan step.

Arithmetic on `ℚ` is expressed through the executable wrappers `qAdd`,
`qSub`, `qMul`, `qDiv`, `qNeg`, `qAbs`, `qSum` below, which are proved equal
to the corresponding field operations (`qAdd_eq` etc.); the wrappers exist
only so that concrete runs of the embedded program can be checked by `decide`.
-/

/-- Executable addition on `ℚ` (equals `a + b`, see `qAdd_eq`). -/
def qAdd (a b : ℚ) : ℚ := mkRat (a.num * b.den + b.num * a.den) (a.den * b.den)

/-- Executable subtraction on `ℚ` (equals `a - b`, see `qSub_eq`). -/
def qSub (a b : ℚ) : ℚ := mkRat (a.num * b.den - b.num * a.den) (a.den * b.den)

/-- Executable multiplication on `ℚ` (equals `a * b`, see `qMul_eq`). -/
def qMul (a b : ℚ) : ℚ := mkRat (a.num * b.num) (a.den * b.den)

/-- Executable division on `ℚ` (equals `a / b`, see `qDiv_eq`). -/
def qDiv (a b : ℚ) : ℚ := Rat.divInt (a.num * b.den) (a.den * b.num)

/-- Executable negation on `ℚ` (equals `-a`, see `qNeg_eq`). -/
def qNeg (a : ℚ) : ℚ := mkRat (-a.num) a.den

/-- Executable absolute value on `ℚ` (equals `|a|`, see `qAbs_eq`). -/
def qAbs (a : ℚ) : ℚ := if a < 0 then qNeg a else a

/-- Executable list sum on `ℚ` (equals `l.sum`, see `qSum_eq`). -/
def qSum (l : List ℚ) : ℚ := l.foldl qAdd 0

theorem qDen_cast_ne_zero (a : ℚ) : ((a.den : ℚ)) ≠ 0 :=
  Nat.cast_ne_zero.mpr a.den_nz

theorem qAdd_eq (a b : ℚ) : qAdd a b = a + b := by
  unfold qAdd
  rw [Rat.mkRat_eq_div]
  push_cast
  conv_rhs => rw [← Rat.num_div_den a, ← Rat.num_div_den b]
  rw [div_add_div _ _ (qDen_cast_ne_zero a) (qDen_cast_ne_zero b)]
  congr 1
  ring

theorem qSub_eq (a b : ℚ) : qSub a b = a - b := by
  unfold qSub
  rw [Rat.mkRat_eq_div]
  push_cast
  conv_rhs => rw [← Rat.num_div_den a, ← Rat.num_div_den b]
  rw [div_sub_div _ _ (qDen_cast_ne_zero a) (qDen_cast_ne_zero b)]
  congr 1
  ring

theorem qMul_eq (a b : ℚ) : qMul a b = a * b := by
  unfold qMul
  rw [Rat.mkRat_eq_div]
  push_cast
  conv_rhs => rw [← Rat.num_div_den a, ← Rat.num_div_den b]
  rw [div_mul_div_comm]

theorem qDiv_eq (a b : ℚ) : qDiv a b = a / b := by
  unfold qDiv
  rw [Rat.divInt_eq_div]
  push_cast
  by_cases hb : b = 0
  · subst hb; simp
  · conv_rhs => rw [← Rat.num_div_den a, ← Rat.num_div_den b]
    have hbn : ((b.num : ℚ)) ≠ 0 := by
      exact_mod_cast Rat.num_ne_zero.mpr hb
    field_simp

theorem qNeg_eq (a : ℚ) : qNeg a = -a := by
  unfold qNeg
  rw [Rat.mkRat_eq_div]
  push_cast
  rw [neg_div, Rat.num_div_den]

theorem qAbs_eq (a : ℚ) : qAbs a = |a| := by
  unfold qAbs
  by_cases h : a < 0
  · rw [if_pos h, qNeg_eq, abs_of_neg h]
  · rw [if_neg h, abs_of_nonneg (le_of_not_lt h)]

theorem qSum_foldl (l : List ℚ) (a : ℚ) : l.foldl qAdd a = a + l.sum := by
  induction l generalizing a with
  | nil => simp [List.foldl]
  | cons x xs ih =>
    simp only [List.foldl, List.sum_cons, qAdd_eq, ih (a + x)]
    ring

theorem qSum_eq (l : List ℚ) : qSum l = l.sum := by
  unfold qSum
  rw [qSum_foldl]
  ring

/-- Python strings are sequences of code points. -/
abbrev Str := List Char

/-- Literal helper: the character list of a string literal. -/
def strLit (s : String) : Str := s.data

/-- One row of the simulation CSV, restricted to the columns the analysis
reads: `Grade`, `PosX`, `PosY`, `AvgTotal`. -/
structure SimRecord where
  grade : ℤ
  posX : ℚ
  posY : ℚ
  avgTotal : ℚ
deriving DecidableEq

/-- `np.mean` / pandas `.mean()` over a list of values: arithmetic mean,
with the empty mean (pandas NaN) modelled as `none`. -/
def listMean (l : List ℚ) : Option ℚ :=
  if l = [] then none else some (qDiv (qSum l) (l.length : ℚ))

theorem listMean_eq (l : List ℚ) (h : l ≠ []) :
    listMean l = some (l.sum / (l.length : ℚ)) := by
  unfold listMean
  rw [if_neg h, qDiv_eq, qSum_eq]

/-- `df_perf = df[df['Grade'] > 0]` (line 70 of the script). -/
def dfPerf (rs : List SimRecord) : List SimRecord :=
  rs.filter (fun r => decide (0 < r.grade))

/-- `df_perf[df_perf['Grade'] == g]`: the rows of one grade. -/
def gradeData (rs : List SimRecord) (g : ℤ) : List SimRecord :=
  (dfPerf rs).filter (fun r => decide (r.grade = g))

/-- `df_perf[df_perf['Grade'] == g]['AvgTotal'].mean()` (line 202). -/
def simMeanOfGrade (rs : List SimRecord) (g : ℤ) : Option ℚ :=
  listMean ((gradeData rs g).map (·.avgTotal))

/-- Sample variance with ddof = 1, the square of pandas `.std()` (line 203).
pandas returns NaN for fewer than two samples; that is modelled as `none`.
The standard deviation itself is the square root of this value; over `ℚ` a
standard deviation `s` is characterised by `sampleStdIs l s`. -/
def sampleVar (l : List ℚ) : Option ℚ :=
  if l.length < 2 then none
  else
    match listMean l with
    | some m => some (qDiv (qSum (l.map (fun x => qMul (qSub x m) (qSub x m))))
        (qSub (l.length : ℚ) 1))
    | none => none

/-- `s` is the sample standard deviation of `l`: it is nonnegative and its
square is the sample variance (pandas `.std()` = sqrt of `sampleVar`). -/
def sampleStdIs (l : List ℚ) (s : ℚ) : Prop :=
  0 ≤ s ∧ sampleVar l = some (qMul s s)

/-- Square of `df_perf[df_perf['Grade'] == g]['AvgTotal'].std()` (line 203). -/
def simVarOfGrade (rs : List SimRecord) (g : ℤ) : Option ℚ :=
  sampleVar ((gradeData rs g).map (·.avgTotal))

/-- Modelled from the spec (refinement target for C6): the mean of
`avgTotalAbg` over exactly the records with grade `g`. -/
def specGradeMean (rs : List SimRecord) (g : ℤ) : Option ℚ :=
  listMean ((rs.filter (fun r => decide (r.grade = g))).map (·.avgTotal))

/-- Modelled from the spec (refinement target for C6): the sample variance of
`avgTotalAbg` over exactly the records with grade `g`. -/
def specGradeVar (rs : List SimRecord) (g : ℤ) : Option ℚ :=
  sampleVar ((rs.filter (fun r => decide (r.grade = g))).map (·.avgTotal))

/-- `positions = sorted(g_data['PosX'].unique())` (line 297): the sorted
distinct `PosX` values of the grade's rows, used for BOTH grid axes. -/
def positions (D : List SimRecord) : List ℚ :=
  List.insertionSort (· ≤ ·) ((D.map (·.posX)).dedup)

/-- The scan order of the matcher's double loop (lines 303-304):
outer loop `py` ascending, inner loop `px` ascending. -/
def scanCells (D : List SimRecord) : List (ℚ × ℚ) :=
  (positions D).flatMap (fun py => (positions D).map (fun px => (px, py)))

/-- `g_data[(g_data['PosX'] == px) & (g_data['PosY'] == py)]['AvgTotal'].mean()`
(line 305): mean simulated ABG of one grid cell; an empty cell gives pandas
NaN, modelled `none`. -/
def cellMean (D : List SimRecord) (px py : ℚ) : Option ℚ :=
  listMean ((D.filter (fun r => decide (r.posX = px) && decide (r.posY = py))).map (·.avgTotal))

/-- A scanned cell: its `(px, py)` position and its (possibly missing) mean. -/
abbrev Cell := (ℚ × ℚ) × Option ℚ

/-- One iteration of the matcher loop (lines 305-311).  State is
`(best_pos, min_error)` with `min_error = none` for `float('inf')`.  An
undefined cell mean makes `error = abs(NaN - target) = NaN`, and
`NaN < min_error` is false in Python, so the state is unchanged; a defined
error updates the state only under the strict comparison `error < min_error`
(any finite value is `< inf`). -/
def matchStep (t : ℚ) (s : (ℚ × ℚ) × Option ℚ) (c : Cell) : (ℚ × ℚ) × Option ℚ :=
  match c.2 with
  | none => s
  | some v =>
    match s.2 with
    | none => (c.1, some (qAbs (qSub v t)))
    | some m => if qAbs (qSub v t) < m then (c.1, some (qAbs (qSub v t))) else s

/-- The matcher loop over a cell list, started from the hard-coded initial
state `best_pos = (0.5, 0.5)`, `min_error = float('inf')` (lines 300-301). -/
def bestScan (t : ℚ) (cells : List Cell) : (ℚ × ℚ) × Option ℚ :=
  cells.foldl (matchStep t) ((mkRat 1 2, mkRat 1 2), none)

/-- The scanned cells of a grade's grid, each paired with its mean. -/
def gridCells (D : List SimRecord) : List Cell :=
  (scanCells D).map (fun c => (c, cellMean D c.1 c.2))

/-- `best_positions[grade]` (lines 289-313): the full scan for one grade's
rows `D` and clinical target `t`, returning the best position and its
minimal error (`none` = `float('inf')` when no cell ever updated it). -/
def bestPositions (D : List SimRecord) (t : ℚ) : (ℚ × ℚ) × Option ℚ :=
  bestScan t (gridCells D)

example : simMeanOfGrade [⟨1, 0, 0, 10⟩, ⟨1, 1, 0, 20⟩, ⟨1, 0, 1, 30⟩] 1 = some 20 := by decide

example : simVarOfGrade [⟨1, 0, 0, 10⟩, ⟨1, 1, 0, 20⟩, ⟨1, 0, 1, 30⟩] 1 = some 100 := by decide

example :
    bestPositions [⟨2, 0, 0, 22⟩, ⟨2, 1, 0, 18⟩, ⟨2, 0, 1, 25⟩, ⟨2, 1, 1, 20⟩] (mkRat 104 5) =
      ((1, 1), some (mkRat 4 5)) := by decide

example : bestPositions [⟨1, 0, 1, 15⟩] 20 = ((mkRat 1 2, mkRat 1 2), none) := by decide

/-- The error the scan computes for a cell: `abs(sim_val - target)`, missing
(NaN) when the cell mean is missing. -/
def errOf (t : ℚ) (c : Cell) : Option ℚ := c.2.map (fun v => qAbs (qSub v t))

/-- Minimum of two extended values, `none` playing the role of `+inf`. -/
def minE : Option ℚ → Option ℚ → Option ℚ
  | none, b => b
  | some a, none => some a
  | some a, some b => some (min a b)

/-- The minimum of the defined cell errors of a list (`none` = `+inf`). -/
def minErrs (t : ℚ) (cells : List Cell) : Option ℚ :=
  cells.foldr (fun c acc => minE (errOf t c) acc) none

theorem minE_none_right (a : Option ℚ) : minE a none = a := by
  cases a <;> rfl

theorem minErrs_cons (t : ℚ) (c : Cell) (cs : List Cell) :
    minErrs t (c :: cs) = minE (errOf t c) (minErrs t cs) := rfl

theorem minE_assoc (a b c : Option ℚ) : minE (minE a b) c = minE a (minE b c) := by
  rcases a with _ | a <;> rcases b with _ | b <;> rcases c with _ | c <;>
    simp [minE, min_assoc]

theorem matchStep_snd (t : ℚ) (s : (ℚ × ℚ) × Option ℚ) (c : Cell) :
    (matchStep t s c).2 = minE s.2 (errOf t c) := by
  rcases c with ⟨p, hv⟩
  rcases hv with _ | v
  · rcases s with ⟨q, hm⟩
    rcases hm with _ | m <;> simp [matchStep, errOf, minE]
  · rcases s with ⟨q, hm⟩
    rcases hm with _ | m
    · simp [matchStep, errOf, minE]
    · by_cases h : qAbs (qSub v t) < m
      · simp [matchStep, errOf, minE, h, min_eq_right (le_of_lt h)]
      · simp [matchStep, errOf, minE, h, min_eq_left (le_of_not_lt h)]

theorem bestFold_snd (t : ℚ) (cells : List Cell) :
    ∀ s, (cells.foldl (matchStep t) s).2 = minE s.2 (minErrs t cells) := by
  induction cells with
  | nil => intro s; rw [List.foldl_nil]; exact (minE_none_right s.2).symm
  | cons c cs ih =>
    intro s
    rw [List.foldl_cons, ih (matchStep t s c), matchStep_snd, minErrs_cons, minE_assoc]

theorem bestFold_cases (t : ℚ) (cells : List Cell) :
    ∀ s, cells.foldl (matchStep t) s = s ∨
      ∃ c ∈ cells, ∃ v, c.2 = some v ∧
        cells.foldl (matchStep t) s = (c.1, some (qAbs (qSub v t))) := by
  induction cells with
  | nil => intro s; left; rfl
  | cons c cs ih =>
    intro s
    rcases ih (matchStep t s c) with h | ⟨c', hc', v, hv, h⟩
    · rw [List.foldl_cons]
      rcases hc2 : c.2 with _ | v
      · left
        rw [h]
        rcases c with ⟨p, hv2⟩
        simp only at hc2
        simp [matchStep, hc2]
      · rcases hs2 : s.2 with _ | m
        · right
          refine ⟨c, List.mem_cons_self _ _, v, hc2, ?_⟩
          rw [h]
          rcases c with ⟨p, hv2⟩
          rcases s with ⟨q, hm2⟩
          simp only at hc2 hs2
          simp [matchStep, hc2, hs2]
        · by_cases hlt : qAbs (qSub v t) < m
          · right
            refine ⟨c, List.mem_cons_self _ _, v, hc2, ?_⟩
            rw [h]
            rcases c with ⟨p, hv2⟩
            rcases s with ⟨q, hm2⟩
            simp only at hc2 hs2
            simp [matchStep, hc2, hs2, hlt]
          · left
            rw [h]
            rcases c with ⟨p, hv2⟩
            rcases s with ⟨q, hm2⟩
            simp only at hc2 hs2
            simp [matchStep, hc2, hs2, hlt]
    · right
      exact ⟨c', List.mem_cons_of_mem _ hc', v, hv, by rw [List.foldl_cons, h]⟩

theorem bestFold_stable (t e : ℚ) (p : ℚ × ℚ) (cells : List Cell)
    (h : ∀ c ∈ cells, ∀ v, c.2 = some v → e ≤ qAbs (qSub v t)) :
    cells.foldl (matchStep t) (p, some e) = (p, some e) := by
  induction cells with
  | nil => rfl
  | cons c cs ih =>
    have hstep : matchStep t (p, some e) c = (p, some e) := by
      rcases hc2 : c.2 with _ | v
      · rcases c with ⟨q, hv2⟩
        simp only at hc2
        simp [matchStep, hc2]
      · have hle := h c (List.mem_cons_self _ _) v hc2
        rcases c with ⟨q, hv2⟩
        simp only at hc2
        simp [matchStep, hc2, not_lt.mpr hle]
    rw [List.foldl_cons, hstep]
    exact ih (fun c hc v hv => h c (List.mem_cons_of_mem _ hc) v hv)

theorem bestFold_all_none (t : ℚ) (cells : List Cell)
    (h : ∀ c ∈ cells, c.2 = none) : ∀ s, cells.foldl (matchStep t) s = s := by
  induction cells with
  | nil => intro s; rfl
  | cons c cs ih =>
    intro s
    have hc2 := h c (List.mem_cons_self _ _)
    rw [List.foldl_cons]
    have hstep : matchStep t s c = s := by
      rcases c with ⟨q, hv2⟩
      simp only at hc2
      simp [matchStep, hc2]
    rw [hstep]
    exact ih (fun c hc => h c (List.mem_cons_of_mem _ hc)) s

theorem bestFold_filter (t : ℚ) (cells : List Cell) :
    ∀ s, cells.foldl (matchStep t) s =
      (cells.filter (fun c => (c.2).isSome)).foldl (matchStep t) s := by
  induction cells with
  | nil => intro s; rfl
  | cons c cs ih =>
    intro s
    rw [List.foldl_cons, List.filter_cons]
    rcases hc2 : c.2 with _ | v
    · have hstep : matchStep t s c = s := by
        rcases c with ⟨q, hv2⟩
        simp only at hc2
        simp [matchStep, hc2]
      rw [hstep]
      simp only [hc2, Option.isSome_none, Bool.false_eq_true, if_false]
      exact ih s
    · simp only [hc2, Option.isSome_some, if_true]
      rw [List.foldl_cons]
      exact ih (matchStep t s c)

theorem minErrs_le (t : ℚ) (cells : List Cell) (c : Cell) (hc : c ∈ cells) (v : ℚ)
    (hv : c.2 = some v) : ∃ m, minErrs t cells = some m ∧ m ≤ qAbs (qSub v t) := by
  induction cells with
  | nil => cases hc
  | cons a as ih =>
    rcases List.mem_cons.mp hc with rfl | hmem
    · rw [minErrs_cons]
      have he : errOf t c = some (qAbs (qSub v t)) := by simp [errOf, hv]
      rw [he]
      rcases hmins : minErrs t as with _ | m'
      · exact ⟨qAbs (qSub v t), rfl, le_refl _⟩
      · exact ⟨min (qAbs (qSub v t)) m', rfl, min_le_left _ _⟩
    · obtain ⟨m, hm, hle⟩ := ih hmem
      rw [minErrs_cons, hm]
      rcases he : errOf t a with _ | e'
      · exact ⟨m, rfl, hle⟩
      · exact ⟨min e' m, rfl, le_trans (min_le_right _ _) hle⟩

theorem errOf_nonneg (t : ℚ) (c : Cell) (e : ℚ) (h : errOf t c = some e) : 0 ≤ e := by
  rcases c with ⟨p, hv⟩
  rcases hv with _ | v
  · simp [errOf] at h
  · simp [errOf] at h
    rw [← h, qAbs_eq]
    exact abs_nonneg _

theorem minErrs_nonneg (t : ℚ) (cells : List Cell) (m : ℚ)
    (h : minErrs t cells = some m) : 0 ≤ m := by
  induction cells generalizing m with
  | nil => simp [minErrs] at h
  | cons c cs ih =>
    rw [minErrs_cons] at h
    rcases he : errOf t c with _ | e <;> rw [he] at h
    · exact ih m h
    · rcases hm' : minErrs t cs with _ | m' <;> rw [hm'] at h
      · simp [minE] at h
        rw [← h]
        exact errOf_nonneg t c e he
      · simp [minE] at h
        rw [← h]
        exact le_min (errOf_nonneg t c e he) (ih m' hm')

theorem minErrs_above (t e : ℚ) (cells : List Cell)
    (h : ∀ c ∈ cells, ∀ v, c.2 = some v → e < qAbs (qSub v t)) :
    minErrs t cells = none ∨ ∃ m, minErrs t cells = some m ∧ e < m := by
  induction cells with
  | nil => left; rfl
  | cons c cs ih =>
    have hcs := ih (fun c hc v hv => h c (List.mem_cons_of_mem _ hc) v hv)
    rw [minErrs_cons]
    rcases he : errOf t c with _ | e'
    · simpa [minE] using hcs
    · have he' : e < e' := by
        rcases c with ⟨p, hv⟩
        rcases hv with _ | v
        · simp [errOf] at he
        · simp [errOf] at he
          rw [← he]
          exact h _ (List.mem_cons_self _ _) v rfl
      rcases hcs with hnone | ⟨m, hm, hem⟩
      · rw [hnone]
        exact Or.inr ⟨e', rfl, he'⟩
      · rw [hm]
        exact Or.inr ⟨min e' m, rfl, lt_min he' hem⟩

theorem mem_gridCells (D : List SimRecord) (c : Cell) :
    c ∈ gridCells D ↔ ∃ p ∈ scanCells D, c = (p, cellMean D p.1 p.2) := by
  unfold gridCells
  rw [List.mem_map]
  constructor
  · rintro ⟨p, hp, rfl⟩
    exact ⟨p, hp, rfl⟩
  · rintro ⟨p, hp, rfl⟩
    exact ⟨p, hp, rfl⟩

/-- Boolean form of "every defined error in `l` is strictly above `e`". -/
def allErrAbove (t e : ℚ) (l : List Cell) : Bool :=
  l.all (fun c => match c.2 with
    | none => true
    | some v => decide (e < qAbs (qSub v t)))

/-- Boolean form of "every defined error in `l` is at least `e`". -/
def allErrAtLeast (t e : ℚ) (l : List Cell) : Bool :=
  l.all (fun c => match c.2 with
    | none => true
    | some v => decide (e ≤ qAbs (qSub v t)))

theorem allErrAbove_iff (t e : ℚ) (l : List Cell) :
    allErrAbove t e l = true ↔ ∀ c ∈ l, ∀ v, c.2 = some v → e < qAbs (qSub v t) := by
  unfold allErrAbove
  rw [List.all_eq_true]
  constructor
  · intro h c hc v hv
    have hcv := h c hc
    rw [hv] at hcv
    exact of_decide_eq_true hcv
  · intro h c hc
    rcases hv : c.2 with _ | v
    · rfl
    · exact decide_eq_true (h c hc v hv)

theorem allErrAtLeast_iff (t e : ℚ) (l : List Cell) :
    allErrAtLeast t e l = true ↔ ∀ c ∈ l, ∀ v, c.2 = some v → e ≤ qAbs (qSub v t) := by
  unfold allErrAtLeast
  rw [List.all_eq_true]
  constructor
  · intro h c hc v hv
    have hcv := h c hc
    rw [hv] at hcv
    exact of_decide_eq_true hcv
  · intro h c hc
    rcases hv : c.2 with _ | v
    · rfl
    · exact decide_eq_true (h c hc v hv)

/-- Claim C1: for every grade's grid and clinical target, the matcher returns a
scanned position whose defined cell mean minimizes `abs(simulatedValue - target)`
over the scanned cells, together with that minimal error, and the returned
error is nonnegative (provided at least one scanned cell has a defined mean;
the grade-2 scenario of the claim is checked in the witness). -/
theorem C1_best_position_minimizes (D : List SimRecord) (t : ℚ)
    (h : ∃ p ∈ scanCells D, (cellMean D p.1 p.2).isSome = true) :
    ∃ px py e, bestPositions D t = ((px, py), some e) ∧ 0 ≤ e ∧
      (∃ v, (px, py) ∈ scanCells D ∧ cellMean D px py = some v ∧ e = qAbs (qSub v t)) ∧
      (∀ q ∈ scanCells D, ∀ v, cellMean D q.1 q.2 = some v → e ≤ qAbs (qSub v t)) := by
  obtain ⟨p, hp, hsome⟩ := h
  obtain ⟨v0, hv0⟩ := Option.isSome_iff_exists.mp hsome
  have hmem : (p, cellMean D p.1 p.2) ∈ gridCells D :=
    (mem_gridCells D _).mpr ⟨p, hp, rfl⟩
  have hminsome : ∃ m, minErrs t (gridCells D) = some m ∧ m ≤ qAbs (qSub v0 t) :=
    minErrs_le t (gridCells D) _ hmem v0 (by simpa using hv0)
  obtain ⟨m0, hm0, _⟩ := hminsome
  have hsnd : (bestPositions D t).2 = minErrs t (gridCells D) := by
    unfold bestPositions bestScan
    rw [bestFold_snd]
    rfl
  rcases bestFold_cases t (gridCells D) ((mkRat 1 2, mkRat 1 2), none) with hcase | hcase
  · exfalso
    have : (bestPositions D t).2 = none := by
      unfold bestPositions bestScan
      rw [hcase]
    rw [hsnd, hm0] at this
    exact Option.some_ne_none m0 this
  · obtain ⟨c, hc, v, hv, hres⟩ := hcase
    obtain ⟨q, hq, rfl⟩ := (mem_gridCells D c).mp hc
    have hres' : bestPositions D t = (q, some (qAbs (qSub v t))) := by
      unfold bestPositions bestScan
      rw [hres]
    refine ⟨q.1, q.2, qAbs (qSub v t), ?_, ?_, ⟨v, ?_, ?_, rfl⟩, ?_⟩
    · rw [hres']
    · rw [qAbs_eq]
      exact abs_nonneg _
    · rwa [Prod.mk.eta]
    · simpa [Prod.mk.eta] using hv
    · intro q' hq' v' hv'
      have hmem' : (q', cellMean D q'.1 q'.2) ∈ gridCells D :=
        (mem_gridCells D _).mpr ⟨q', hq', rfl⟩
      obtain ⟨m, hm, hle⟩ := minErrs_le t (gridCells D) _ hmem' v' (by simpa using hv')
      have : some (qAbs (qSub v t)) = some m := by
        rw [← hm, ← hsnd, hres']
      rw [Option.some_inj.mp this]
      exact hle

/-- Witness for C1: the grade-2 scenario of the claim.  Cell means
(0,0) → 22, (1,0) → 18, (0,1) → 25, (1,1) → 20 and clinical target
20.8 = 104/5 give best position (1,1) with error 0.8 = 4/5. -/
theorem C1_best_position_minimizes_witness :
    bestPositions [⟨2, 0, 0, 22⟩, ⟨2, 1, 0, 18⟩, ⟨2, 0, 1, 25⟩, ⟨2, 1, 1, 20⟩]
        (mkRat 104 5) = ((1, 1), some (mkRat 4 5)) ∧
    (∃ px py e,
      bestPositions [⟨2, 0, 0, 22⟩, ⟨2, 1, 0, 18⟩, ⟨2, 0, 1, 25⟩, ⟨2, 1, 1, 20⟩]
          (mkRat 104 5) = ((px, py), some e) ∧ 0 ≤ e ∧
      (∃ v, (px, py) ∈ scanCells [⟨2, 0, 0, 22⟩, ⟨2, 1, 0, 18⟩, ⟨2, 0, 1, 25⟩, ⟨2, 1, 1, 20⟩] ∧
        cellMean [⟨2, 0, 0, 22⟩, ⟨2, 1, 0, 18⟩, ⟨2, 0, 1, 25⟩, ⟨2, 1, 1, 20⟩] px py = some v ∧
        e = qAbs (qSub v (mkRat 104 5))) ∧
      (∀ q ∈ scanCells [⟨2, 0, 0, 22⟩, ⟨2, 1, 0, 18⟩, ⟨2, 0, 1, 25⟩, ⟨2, 1, 1, 20⟩], ∀ v,
        cellMean [⟨2, 0, 0, 22⟩, ⟨2, 1, 0, 18⟩, ⟨2, 0, 1, 25⟩, ⟨2, 1, 1, 20⟩] q.1 q.2 = some v →
          e ≤ qAbs (qSub v (mkRat 104 5)))) :=
  ⟨by decide, C1_best_position_minimizes _ _ (by decide)⟩

/-- Claim C2: the running minimum is updated only under a strictly-less-than
comparison, so when several scanned cells attain the minimal error, the first
one in scan order wins: if the scan list splits as `l1 ++ a :: l2` where every
defined error in `l1` is strictly above `e`, cell `a` has error exactly `e`,
and every defined error in `l2` is at least `e` (ties allowed), then the
matcher returns `a`'s position — a later tied cell never replaces it. -/
theorem C2_first_minimum_wins (D : List SimRecord) (t : ℚ) (l1 l2 : List Cell)
    (a : Cell) (va e : ℚ)
    (hsplit : gridCells D = l1 ++ a :: l2)
    (hva : a.2 = some va) (he : qAbs (qSub va t) = e)
    (h1 : allErrAbove t e l1 = true)
    (h2 : allErrAtLeast t e l2 = true) :
    bestPositions D t = (a.1, some e) := by
  have h1' := (allErrAbove_iff t e l1).mp h1
  have h2' := (allErrAtLeast_iff t e l2).mp h2
  unfold bestPositions bestScan
  rw [hsplit, List.foldl_append, List.foldl_cons]
  have hs1 : (l1.foldl (matchStep t) ((mkRat 1 2, mkRat 1 2), none)).2 = minErrs t l1 := by
    rw [bestFold_snd]
    rfl
  have hstep : matchStep t (l1.foldl (matchStep t) ((mkRat 1 2, mkRat 1 2), none)) a =
      (a.1, some e) := by
    rcases minErrs_above t e l1 h1' with hnone | ⟨m, hm, hlt⟩
    · rcases a with ⟨pa, ha2⟩
      simp only at hva
      rcases hfold : l1.foldl (matchStep t) ((mkRat 1 2, mkRat 1 2), none) with ⟨pb, hb2⟩
      have : hb2 = none := by
        have := hs1
        rw [hfold, hnone] at this
        exact this
      subst this
      simp [matchStep, hva, he]
    · rcases a with ⟨pa, ha2⟩
      simp only at hva
      rcases hfold : l1.foldl (matchStep t) ((mkRat 1 2, mkRat 1 2), none) with ⟨pb, hb2⟩
      have : hb2 = some m := by
        have := hs1
        rw [hfold, hm] at this
        exact this
      subst this
      simp [matchStep, hva, he, hlt]
  rw [hstep]
  exact bestFold_stable t e a.1 l2 h2'

/-- Witness for C2: grade-1 rows with cell means (0,0) → 22, (1,0) → 18,
(0,1) → 30, (1,1) → 18 and target 20: cells (0,0), (1,0) and (1,1) all have
error 2, and the scan returns the first one, (0,0); the later tied cells do
not replace it. -/
theorem C2_first_minimum_wins_witness :
    bestPositions [⟨1, 0, 0, 22⟩, ⟨1, 1, 0, 18⟩, ⟨1, 0, 1, 30⟩, ⟨1, 1, 1, 18⟩] 20 =
      ((0, 0), some 2) ∧
    cellMean [⟨1, 0, 0, 22⟩, ⟨1, 1, 0, 18⟩, ⟨1, 0, 1, 30⟩, ⟨1, 1, 1, 18⟩] 1 0 = some 18 ∧
    qAbs (qSub 18 20) = 2 :=
  ⟨C2_first_minimum_wins _ 20
      []
      [((1, 0), some 18), ((0, 1), some 30), ((1, 1), some 18)]
      ((0, 0), some 22) 22 2
      (by decide) (by decide) (by decide) (by decide) (by decide),
    by decide, by decide⟩

/-- Claim C3: a grid cell with no contributing rows (undefined mean) is never
selected and never reduces the running minimum: filtering the undefined cells
out of the scan list leaves the scan result unchanged, and whenever the final
error is finite (a cell was actually selected), the selected position is not
one whose cell mean is undefined. -/
theorem C3_missing_cells_never_selected (D : List SimRecord) (t : ℚ) :
    bestScan t (gridCells D) = bestScan t ((gridCells D).filter (fun c => (c.2).isSome)) ∧
    ∀ px py, cellMean D px py = none → (bestPositions D t).2 ≠ none →
      (bestPositions D t).1 ≠ (px, py) := by
  constructor
  · unfold bestScan
    exact bestFold_filter t (gridCells D) _
  · intro px py hnone hdef
    rcases bestFold_cases t (gridCells D) ((mkRat 1 2, mkRat 1 2), none) with hcase | hcase
    · exfalso
      apply hdef
      unfold bestPositions bestScan
      rw [hcase]
    · obtain ⟨c, hc, v, hv, hres⟩ := hcase
      obtain ⟨q, _, rfl⟩ := (mem_gridCells D c).mp hc
      have hres' : bestPositions D t = (q, some (qAbs (qSub v t))) := by
        unfold bestPositions bestScan
        rw [hres]
      rw [hres']
      intro hq
      simp only at hq hv
      rw [hq, hnone] at hv
      exact Option.noConfusion hv

/-- Witness for C3: rows at (0,0) → 22, (1,0) → 18, (0,1) → 25 and no row at
(1,1): the cell (1,1) has an undefined mean, the scan result is finite, and
the selected position is not (1,1); filtering the undefined cell away leaves
the result unchanged. -/
theorem C3_missing_cells_never_selected_witness :
    (bestPositions [⟨1, 0, 0, 22⟩, ⟨1, 1, 0, 18⟩, ⟨1, 0, 1, 25⟩] 20).1 ≠ ((1 : ℚ), (1 : ℚ)) ∧
    cellMean [⟨1, 0, 0, 22⟩, ⟨1, 1, 0, 18⟩, ⟨1, 0, 1, 25⟩] 1 1 = none ∧
    bestScan 20 (gridCells [⟨1, 0, 0, 22⟩, ⟨1, 1, 0, 18⟩, ⟨1, 0, 1, 25⟩]) =
      bestScan 20 ((gridCells [⟨1, 0, 0, 22⟩, ⟨1, 1, 0, 18⟩, ⟨1, 0, 1, 25⟩]).filter
        (fun c => (c.2).isSome)) :=
  ⟨(C3_missing_cells_never_selected [⟨1, 0, 0, 22⟩, ⟨1, 1, 0, 18⟩, ⟨1, 0, 1, 25⟩] 20).2
      1 1 (by decide) (by decide),
    by decide,
    (C3_missing_cells_never_selected [⟨1, 0, 0, 22⟩, ⟨1, 1, 0, 18⟩, ⟨1, 0, 1, 25⟩] 20).1⟩

/-- Claim C10: when every scanned cell of the grade's grid has an undefined
mean, the matcher neither fails nor reports absence: no comparison ever
succeeds, so the hard-coded initial state survives and the result is the
default position (0.5, 0.5) with the infinite initial error
(`float('inf')`, modelled `none`) — even though (0.5, 0.5) need not be a
scanned grid position (checked in the witness). -/
theorem C10_all_cells_missing_default (D : List SimRecord) (t : ℚ)
    (h : ∀ p ∈ scanCells D, cellMean D p.1 p.2 = none) :
    bestPositions D t = ((mkRat 1 2, mkRat 1 2), none) := by
  unfold bestPositions bestScan
  apply bestFold_all_none
  intro c hc
  obtain ⟨q, hq, rfl⟩ := (mem_gridCells D c).mp hc
  exact h q hq

/-- Witness for C10: a single grade-1 row at PosX = 0, PosY = 1 gives the
grid axis [0], whose only cell (0,0) has no contributing rows; the matcher
returns (0.5, 0.5) with infinite error although (0.5, 0.5) is not among the
scanned positions. -/
theorem C10_all_cells_missing_default_witness :
    bestPositions [⟨1, 0, 1, 15⟩] 20 = ((mkRat 1 2, mkRat 1 2), none) ∧
    (mkRat 1 2, mkRat 1 2) ∉ scanCells [⟨1, 0, 1, 15⟩] :=
  ⟨C10_all_cells_missing_default [⟨1, 0, 1, 15⟩] 20 (by decide), by decide⟩

/-- Claim C7 counterexample: the grid axes are built from the distinct `PosX`
values only (line 297), so for the single record with PosX = 0, PosY = 1
the axis list is [0], the record's own position pair (0, 1) occurs in the
records but is NOT covered by the scan, and the distinct PosY value 1 is not
enumerated on any axis. -/
theorem C7_cex_posY_pair_not_scanned :
    positions [⟨1, 0, 1, 15⟩] = [0] ∧
    (∃ r ∈ ([⟨1, 0, 1, 15⟩] : List SimRecord), (r.posX, r.posY) = ((0 : ℚ), (1 : ℚ))) ∧
    ((0 : ℚ), (1 : ℚ)) ∉ scanCells [⟨1, 0, 1, 15⟩] := by decide

/-- Claim C7 as amended: the aggregator enumerates the distinct `PosX` values
(sorted ascending) and uses that one set for both axes; the matcher scans
every pair of that set; every record's `posX` lies on the axis, and a record's
position pair is covered by the scan provided its `posY` also lies in the
distinct-`PosX` set (the square-grid assumption). -/
theorem C7_scan_covers_grid (D : List SimRecord) :
    (∀ x ∈ positions D, ∀ y ∈ positions D, (x, y) ∈ scanCells D) ∧
    (∀ r ∈ D, r.posX ∈ positions D) ∧
    (∀ r ∈ D, r.posY ∈ positions D → (r.posX, r.posY) ∈ scanCells D) := by
  have hpair : ∀ x ∈ positions D, ∀ y ∈ positions D, (x, y) ∈ scanCells D := by
    intro x hx y hy
    unfold scanCells
    rw [List.mem_flatMap]
    exact ⟨y, hy, List.mem_map.mpr ⟨x, hx, rfl⟩⟩
  have hposX : ∀ r ∈ D, r.posX ∈ positions D := by
    intro r hr
    unfold positions
    rw [(List.perm_insertionSort _ _).mem_iff, List.mem_dedup]
    exact List.mem_map.mpr ⟨r, hr, rfl⟩
  exact ⟨hpair, hposX, fun r hr hy => hpair _ (hposX r hr) _ hy⟩

/-- Witness for the amended C7: for the single record at (0, 0) the pair
(posX, posY) = (0, 0) is covered by the scan. -/
theorem C7_scan_covers_grid_witness :
    ((0 : ℚ), (0 : ℚ)) ∈ scanCells [⟨1, 0, 0, 22⟩] :=
  (C7_scan_covers_grid [⟨1, 0, 0, 22⟩]).2.2 ⟨1, 0, 0, 22⟩ (by decide) (by decide)

theorem gradeData_eq_filter (rs : List SimRecord) (g : ℤ) (hg : 1 ≤ g) :
    gradeData rs g = rs.filter (fun r => decide (r.grade = g)) := by
  unfold gradeData dfPerf
  rw [List.filter_filter]
  apply List.filter_congr
  intro r _
  by_cases hrg : r.grade = g
  · have h0 : 0 < g := by omega
    simp [hrg, h0]
  · simp [hrg]

/-- Claim C6: the aggregator works on the simulation rows filtered to
grade > 0, and for every grade g ≥ 1 (in particular g ∈ {1,2,3,4}) its mean
and sample-variance (squared sample standard deviation) of `avgTotalAbg` are
taken over exactly the records with that grade; the [10,20,30] scenario is
checked in the witness. -/
theorem C6_grade_stats_exact (rs : List SimRecord) (g : ℤ) (hg : 1 ≤ g) :
    simMeanOfGrade rs g = specGradeMean rs g ∧ simVarOfGrade rs g = specGradeVar rs g := by
  unfold simMeanOfGrade specGradeMean simVarOfGrade specGradeVar
  rw [gradeData_eq_filter rs g hg]
  exact ⟨rfl, rfl⟩

/-- Witness for C6: three grade-1 rows with `avgTotalAbg` 10, 20, 30 give
mean 20 and sample standard deviation 10 (variance 100), and the per-grade
statistics agree with the spec-side definitions. -/
theorem C6_grade_stats_exact_witness :
    simMeanOfGrade [⟨1, 0, 0, 10⟩, ⟨1, 1, 0, 20⟩, ⟨1, 0, 1, 30⟩] 1 = some 20 ∧
    sampleStdIs ((gradeData [⟨1, 0, 0, 10⟩, ⟨1, 1, 0, 20⟩, ⟨1, 0, 1, 30⟩] 1).map
      (·.avgTotal)) 10 ∧
    (simMeanOfGrade [⟨1, 0, 0, 10⟩, ⟨1, 1, 0, 20⟩, ⟨1, 0, 1, 30⟩] 1 =
        specGradeMean [⟨1, 0, 0, 10⟩, ⟨1, 1, 0, 20⟩, ⟨1, 0, 1, 30⟩] 1 ∧
      simVarOfGrade [⟨1, 0, 0, 10⟩, ⟨1, 1, 0, 20⟩, ⟨1, 0, 1, 30⟩] 1 =
        specGradeVar [⟨1, 0, 0, 10⟩, ⟨1, 1, 0, 20⟩, ⟨1, 0, 1, 30⟩] 1) :=
  ⟨by decide, ⟨by decide, by decide⟩, C6_grade_stats_exact _ 1 (by decide)⟩

/-- Claim C8: for a grade with exactly one record the sample standard
deviation of `avgTotalAbg` is undefined — pandas NaN, modelled as the
missing-value marker `none` — which is distinct from `some 0`: it is never
reported as zero. -/
theorem C8_single_sample_std_undefined (rs : List SimRecord) (g : ℤ)
    (h : (gradeData rs g).length = 1) :
    simVarOfGrade rs g = none ∧ simVarOfGrade rs g ≠ some 0 := by
  have hlen : ((gradeData rs g).map (·.avgTotal)).length < 2 := by
    rw [List.length_map, h]
    omega
  have hnone : simVarOfGrade rs g = none := by
    unfold simVarOfGrade sampleVar
    rw [if_pos hlen]
  refine ⟨hnone, ?_⟩
  rw [hnone]
  exact fun hc => Option.noConfusion hc

/-- Witness for C8: a single grade-2 record gives an undefined (not zero)
standard deviation. -/
theorem C8_single_sample_std_undefined_witness :
    simVarOfGrade [⟨2, 0, 0, 15⟩] 2 = none ∧ simVarOfGrade [⟨2, 0, 0, 15⟩] 2 ≠ some 0 :=
  C8_single_sample_std_undefined [⟨2, 0, 0, 15⟩] 2 (by decide)

/-- `xs` begins with `pre` (auxiliary for substring search). -/
def isPre : Str → Str → Bool
  | [], _ => true
  | _ :: _, [] => false
  | a :: as, b :: bs => a == b && isPre as bs

/-- Python substring containment `needle in hay`. -/
def pyIn (needle : Str) : Str → Bool
  | [] => isPre needle []
  | c :: cs => isPre needle (c :: cs) || pyIn needle cs

/-- Python `s.split(sep)` for a fixed non-empty separator: split at every
non-overlapping occurrence, scanning left to right, keeping empty pieces.
A fuel counter equal to the input length (each step consumes at least one
character) makes the recursion structural. -/
def pySplitF (sep : Str) : Nat → Str → Str → List Str
  | _, [], acc => [acc.reverse]
  | 0, c :: cs, acc => [acc.reverse ++ c :: cs]
  | Nat.succ fuel, c :: cs, acc =>
    if !sep.isEmpty && isPre sep (c :: cs) then
      acc.reverse :: pySplitF sep fuel (List.drop (sep.length - 1) cs) []
    else
      pySplitF sep fuel cs (c :: acc)

/-- Python `s.split(sep)`. -/
def pySplit (sep xs : Str) : List Str := pySplitF sep xs.length xs []

/-- Python list indexing `l[i]`; every source call site guards the index by a
preceding containment check, so the default never fires on source inputs. -/
def pyIndex (l : List Str) (i : Nat) : Str := l.getD i []

/-- The whitespace characters of the data (Python `str.strip`/`str.split`). -/
def isSpace (c : Char) : Bool := c == ' ' || c == '\t' || c == '\n' || c == '\r'

/-- Python `s.strip()`. -/
def pyStrip (s : Str) : Str := ((s.dropWhile isSpace).reverse.dropWhile isSpace).reverse

/-- Python `s.split()` (no separator): split on whitespace runs, no empties. -/
def pySplitWsF : Str → Str → List Str
  | [], acc => if acc.isEmpty then [] else [acc.reverse]
  | c :: cs, acc =>
    if isSpace c then
      if acc.isEmpty then pySplitWsF cs [] else acc.reverse :: pySplitWsF cs []
    else
      pySplitWsF cs (c :: acc)

/-- Python `s.split()` (no separator). -/
def pySplitWs (s : Str) : List Str := pySplitWsF s []

/-- The natural number denoted by a digit string. -/
def natOfDigits (l : Str) : Nat := l.foldl (fun n c => n * 10 + (c.toNat - 48)) 0

/-- Every character is a decimal digit. -/
def allDigits (l : Str) : Bool := l.all (fun c => c.isDigit)

/-- Unsigned decimal literal: digits with at most one decimal point. -/
def parseUnsigned (t : Str) : Option ℚ :=
  match pySplit (strLit ".") t with
  | [ip] => if !ip.isEmpty && allDigits ip then some ((natOfDigits ip : ℚ)) else none
  | [ip, fp] =>
    if !(ip.isEmpty && fp.isEmpty) && allDigits ip && allDigits fp then
      some (mkRat ((natOfDigits ip * 10 ^ fp.length + natOfDigits fp : ℕ) : ℤ)
        (10 ^ fp.length))
    else none
  | _ => none

/-- Python `float(...)` restricted to the decimal literals occurring in the
data: optional sign, digits with an optional single decimal point, and
surrounding whitespace stripped.  Exotic float syntax (exponents, the words
inf/nan, underscores) is not modelled and parses to `none` (failure), which
the source's per-token `except: pass` turns into a skipped token either
way (and the literal string `'nan'` is discarded before conversion). -/
def parseFloat (s : Str) : Option ℚ :=
  match pyStrip s with
  | '+' :: r => parseUnsigned r
  | '-' :: r => (parseUnsigned r).map qNeg
  | r => parseUnsigned r

/-- Python dict (float → float) as an insertion-ordered association list;
`dictInsert` overwrites an existing key in place like `d[k] = v`. -/
def dictInsert (d : List (ℚ × ℚ)) (k v : ℚ) : List (ℚ × ℚ) :=
  match d with
  | [] => [(k, v)]
  | (k', v') :: rest => if k' = k then (k, v) :: rest else (k', v') :: dictInsert rest k v

/-- Python `k in d` / `d[k]` on the association list. -/
def dictLookup (d : List (ℚ × ℚ)) (k : ℚ) : Option ℚ :=
  match d with
  | [] => none
  | (k', v') :: rest => if k' = k then some v' else dictLookup rest k

/-- One `<freq>kHz=<val>dB` token of a conduction line (lines 142-149, and
identically lines 373-378): `freq = part.split('kHz=')[0].strip().split()[-1]`,
`val = part.split('kHz=')[1].split('dB')[0]`; the literal value `'nan'` is
discarded, and any failure (no token before `kHz=`, unparsable number) is
absorbed by the per-token `except: pass`, yielding no entry. -/
def parseToken (part : Str) : Option (ℚ × ℚ) :=
  match (pySplitWs (pyStrip (pyIndex (pySplit (strLit "kHz=") part) 0))).getLast? with
  | none => none
  | some freqStr =>
    let val := pyIndex (pySplit (strLit "dB") (pyIndex (pySplit (strLit "kHz=") part) 1)) 0
    if val = strLit "nan" then none
    else
      match parseFloat freqStr, parseFloat val with
      | some f, some v => some (f, v)
      | _, _ => none

/-- `parse_line` of the full-document parser (lines 137-150): if the prefix
label occurs in the line, split on `|` and collect every parsable
`kHz=...dB` token into a fresh dict. -/
def parse_line (line pfx : Str) : List (ℚ × ℚ) :=
  if pyIn pfx line then
    (pySplit (strLit "|") line).foldl (fun d part =>
      if pyIn (strLit "kHz=") part then
        match parseToken part with
        | some fv => dictInsert d fv.1 fv.2
        | none => d
      else d) []
  else []

/-- The two sides with their bone/air prefix labels (line 153). -/
def sides : List (Str × Str × Str) :=
  [(strLit "R", strLit "R_B", strLit "R_A"), (strLit "L", strLit "L_B", strLit "L_A")]

/-- Lines 157-161 of the full-document parser: scan the pre-operative lines;
each line containing the label REPLACES the whole dict for that modality
(`bone = parse_line(...)`), so the last matching line wins. -/
def sideDicts (preOp pfxB pfxA : Str) : List (ℚ × ℚ) × List (ℚ × ℚ) :=
  (pySplit (strLit "\n") preOp).foldl (fun ba line =>
    (if pyIn pfxB line then parse_line line pfxB else ba.1,
     if pyIn pfxA line then parse_line line pfxA else ba.2)) ([], [])

/-- The canonical audiometric frequencies in kHz (line 167). -/
def canonFreqs : List ℚ := [mkRat 1 4, mkRat 1 2, 1, 2, 3, 4]

/-- Lines 167-171: the (abg, freq·1000) pairs collected over `l`, one for each
frequency present in both the bone and the air dict. -/
def abgPairsOver (l : List ℚ) (bone air : List (ℚ × ℚ)) : List (ℚ × ℚ) :=
  l.filterMap (fun f =>
    match dictLookup bone f, dictLookup air f with
    | some b, some a => some (qSub a b, qMul f 1000)
    | _, _ => none)

/-- Lines 163-180 of the full-document parser, for one side: if both dicts are
non-empty, compute the ABG values at the canonical common frequencies, and if
at least one exists emit (mean ABG, abg list, frequency list in Hz). -/
def emitSide (bone air : List (ℚ × ℚ)) : Option (ℚ × List ℚ × List ℚ) :=
  if bone ≠ [] ∧ air ≠ [] then
    match listMean ((abgPairsOver canonFreqs bone air).map (·.1)) with
    | some m => some (m, (abgPairsOver canonFreqs bone air).map (·.1),
        (abgPairsOver canonFreqs bone air).map (·.2))
    | none => none
  else none

/-- One emitted patient-side record of `load_all_patient_abg`. -/
structure PatientRec where
  id : Str
  avg_abg : ℚ
  abg_values : List ℚ
  freqs : List ℚ
deriving DecidableEq

/-- One patient block of the full-document parser (lines 125-182): the id is
the text before `】`, blocks without the pre-operative marker `[수술전]` are
skipped (`continue`), the pre-operative section runs to the `└` character,
and each side R/L contributes a record when `emitSide` succeeds.  Every
fallible step inside the source's per-block `try: ... except: continue` is
individually guarded, so the embedding is a total function. -/
def processBlock (block : Str) : List PatientRec :=
  if pyIn (strLit "[수술전]") block then
    let pid := pyIndex (pySplit (strLit "】") block) 0
    let preOp := pyIndex (pySplit (strLit "└")
      (pyIndex (pySplit (strLit "[수술전]") block) 1)) 0
    sides.foldl (fun recs sd =>
      let ba := sideDicts preOp sd.2.1 sd.2.2
      match emitSide ba.1 ba.2 with
      | some mv => recs ++ [⟨pid ++ strLit "_" ++ sd.1, mv.1, mv.2.1, mv.2.2⟩]
      | none => recs) []
  else []

/-- The literal tail of the block separator regex `━+\n【환자 `. -/
def blockSep : Str := strLit "\n【환자 "

/-- `re.split(r'━+\n【환자 ', content)` (line 123, and identically lines 360
and 390): a maximal run of `━` characters followed by the literal `blockSep`
separates two pieces.  The regex `━+` is greedy and any match must end at the
end of such a run, so scanning runs left to right over the runs.  A fuel
counter equal to the input length makes the recursion structural. -/
def splitBlocksF : Nat → Str → Str → List Str
  | _, [], acc => [acc.reverse]
  | 0, c :: cs, acc => [acc.reverse ++ c :: cs]
  | Nat.succ fuel, c :: cs, acc =>
    if c == '━' then
      let run := cs.takeWhile (fun d => d == '━')
      let rest := cs.dropWhile (fun d => d == '━')
      if isPre blockSep rest then
        acc.reverse :: splitBlocksF fuel (rest.drop blockSep.length) []
      else
        splitBlocksF fuel rest (run.reverse ++ c :: acc)
    else
      splitBlocksF fuel cs (c :: acc)

/-- `re.split(r'━+\n【환자 ', content)`. -/
def splitBlocks (content : Str) : List Str := splitBlocksF content.length content []

/-- `load_all_patient_abg` (lines 113-184): split the document into patient
blocks (the piece before the first separator is the header, dropped by
`patient_blocks[1:]`) and concatenate the records of every block. -/
def loadAllPatientAbg (content : Str) : List PatientRec :=
  ((splitBlocks content).drop 1).foldl (fun recs b => recs ++ processBlock b) []

example : parseFloat (strLit "0.25") = some (mkRat 1 4) := by decide

example : parseFloat (strLit " -2.5 ") = some (mkRat (-5) 2) := by decide

example : parseFloat (strLit "abc") = none := by decide

example : parseToken (strLit "R_B 0.25kHz=10dB ") = some (mkRat 1 4, 10) := by decide

example : parse_line (strLit "R_B 0.25kHz=10dB | 0.5kHz=20dB") (strLit "R_B") =
    [(mkRat 1 4, 10), (mkRat 1 2, 20)] := by decide

/-- One record emitted by `load_patient_by_group` (no id is recorded). -/
structure GroupRec where
  avg_abg : ℚ
  abg_values : List ℚ
deriving DecidableEq

/-- Lines 369-379 (and identically 399-409): unlike the full parser's
`parse_line`, the group parser MUTATES the per-side dict in place
(`target[freq] = float(val)`), so entries accumulate across all matching
lines instead of the last matching line replacing the dict. -/
def groupLineFold (d : List (ℚ × ℚ)) (line pfx : Str) : List (ℚ × ℚ) :=
  if pyIn pfx line then
    (pySplit (strLit "|") line).foldl (fun d part =>
      if pyIn (strLit "kHz=") part then
        match parseToken part with
        | some fv => dictInsert d fv.1 fv.2
        | none => d
      else d) d
  else d

/-- Lines 366-379: fold every pre-operative line into the two dicts. -/
def groupSideDicts (preOp pfxB pfxA : Str) : List (ℚ × ℚ) × List (ℚ × ℚ) :=
  (pySplit (strLit "\n") preOp).foldl (fun ba line =>
    (groupLineFold ba.1 line pfxB, groupLineFold ba.2 line pfxA)) ([], [])

/-- Lines 380-383 (and 410-413): the ABG comprehension
`[air[f] - bone[f] for f in [0.25, .5, 1, 2, 3, 4] if f in bone and f in air]`
and the emission of one group record. -/
def groupEmitSide (bone air : List (ℚ × ℚ)) : Option GroupRec :=
  if bone ≠ [] ∧ air ≠ [] then
    match listMean ((abgPairsOver canonFreqs bone air).map (·.1)) with
    | some m => some ⟨m, (abgPairsOver canonFreqs bone air).map (·.1)⟩
    | none => none
  else none

/-- One patient block of the group parser (lines 361-385 / 391-415): the same
block structure as `processBlock`, but with accumulating dicts and id-less
records. -/
def groupBlock (block : Str) : List GroupRec :=
  if pyIn (strLit "[수술전]") block then
    let preOp := pyIndex (pySplit (strLit "└")
      (pyIndex (pySplit (strLit "[수술전]") block) 1)) 0
    sides.foldl (fun recs sd =>
      let ba := groupSideDicts preOp sd.2.1 sd.2.2
      match groupEmitSide ba.1 ba.2 with
      | some r => recs ++ [r]
      | none => recs) []
  else []

/-- Per-section extraction of the group parser: split into blocks, drop the
header piece, concatenate the records of every block.  The source bodies for
the ICW section (lines 360-385) and the CWD section (lines 390-415) are
token-for-token identical, so one definition serves both. -/
def groupOfSection (sect : Str) : List GroupRec :=
  ((splitBlocks sect).drop 1).foldl (fun recs b => recs ++ groupBlock b) []

/-- The ICW section marker (line 358). -/
def icwMark : Str := strLit "【 ICW"

/-- The CWD section marker (line 388). -/
def cwdMark : Str := strLit "【 CWD"

/-- Lines 358-359: the ICW slice of the document, `none` when the marker is
absent (no ICW parsing happens then).  `content.split('【 ICW')[1]`, further
cut at the first `'【 CWD'` when that marker occurs anywhere in the document. -/
def icwSection (content : Str) : Option Str :=
  if pyIn icwMark content then
    some (if pyIn cwdMark content then
        pyIndex (pySplit cwdMark (pyIndex (pySplit icwMark content) 1)) 0
      else
        pyIndex (pySplit icwMark content) 1)
  else none

/-- Lines 388-389: the CWD slice, everything after the first `'【 CWD'`. -/
def cwdSection (content : Str) : Option Str :=
  if pyIn cwdMark content then some (pyIndex (pySplit cwdMark content) 1) else none

/-- `load_patient_by_group` (lines 347-417): the pair (ICW records, CWD
records), each obtained by the shared `groupOfSection` on its slice (empty
when the marker is absent). -/
def loadPatientByGroup (content : Str) : List GroupRec × List GroupRec :=
  (match icwSection content with
    | some s => groupOfSection s
    | none => [],
   match cwdSection content with
    | some s => groupOfSection s
    | none => [])

/-- Modelled from the spec (refinement target for C4): the canonical
frequencies present in both mappings. -/
def commonCanon (bone air : List (ℚ × ℚ)) : List ℚ :=
  canonFreqs.filter (fun f => (dictLookup bone f).isSome && (dictLookup air f).isSome)

/-- Modelled from the spec (refinement target for C4): the arithmetic mean of
`air[f] - bone[f]` over exactly the common canonical frequencies. -/
def specMeanAbg (bone air : List (ℚ × ℚ)) : Option ℚ :=
  listMean ((commonCanon bone air).map
    (fun f => qSub ((dictLookup air f).getD 0) ((dictLookup bone f).getD 0)))

theorem abgPairsOver_fst (l : List ℚ) (bone air : List (ℚ × ℚ)) :
    (abgPairsOver l bone air).map (·.1) =
      (l.filter (fun f => (dictLookup bone f).isSome && (dictLookup air f).isSome)).map
        (fun f => qSub ((dictLookup air f).getD 0) ((dictLookup bone f).getD 0)) := by
  induction l with
  | nil => rfl
  | cons f fs ih =>
    unfold abgPairsOver at ih ⊢
    rw [List.filterMap_cons, List.filter_cons]
    rcases hb : dictLookup bone f with _ | b <;> rcases ha : dictLookup air f with _ | a <;>
      simp [hb, ha, ih]

theorem dictLookup_ne_nil (d : List (ℚ × ℚ)) (k : ℚ)
    (h : (dictLookup d k).isSome = true) : d ≠ [] := by
  intro hd
  subst hd
  simp [dictLookup] at h

theorem listMean_isSome (l : List ℚ) : (listMean l).isSome = true ↔ l ≠ [] := by
  unfold listMean
  by_cases h : l = [] <;> simp [h]

theorem abgPairsOver_ne_nil_iff (l : List ℚ) (bone air : List (ℚ × ℚ)) :
    abgPairsOver l bone air ≠ [] ↔
      ∃ f ∈ l, (dictLookup bone f).isSome = true ∧ (dictLookup air f).isSome = true := by
  constructor
  · intro hne
    by_contra hno
    push_neg at hno
    apply hne
    unfold abgPairsOver
    apply List.filterMap_eq_nil_iff.mpr
    intro f hf
    rcases hb : dictLookup bone f with _ | b <;> rcases ha : dictLookup air f with _ | a <;>
      simp_all
  · rintro ⟨f, hf, hb, ha⟩
    obtain ⟨b, hb'⟩ := Option.isSome_iff_exists.mp hb
    obtain ⟨a, ha'⟩ := Option.isSome_iff_exists.mp ha
    intro hnil
    have : (qSub a b, qMul f 1000) ∈ abgPairsOver l bone air := by
      unfold abgPairsOver
      apply List.mem_filterMap.mpr
      exact ⟨f, hf, by rw [hb', ha']⟩
    rw [hnil] at this
    cases this

/-- Claim C4: a parsed patient side yields a record iff at least one canonical
frequency in {0.25, 0.5, 1, 2, 3, 4} kHz has both a bone and an air value,
and the emitted mean ABG is the arithmetic mean of `air[f] - bone[f]` over
exactly those common canonical frequencies — frequencies present in only one
mapping are excluded, not treated as zero. -/
theorem C4_record_iff_common_canonical (bone air : List (ℚ × ℚ)) :
    ((emitSide bone air).isSome = true ↔
      ∃ f ∈ canonFreqs, (dictLookup bone f).isSome = true ∧
        (dictLookup air f).isSome = true) ∧
    (∀ m abgs fs, emitSide bone air = some (m, abgs, fs) →
      specMeanAbg bone air = some m ∧
      abgs = (commonCanon bone air).map
        (fun f => qSub ((dictLookup air f).getD 0) ((dictLookup bone f).getD 0))) := by
  have hspec : specMeanAbg bone air =
      listMean ((abgPairsOver canonFreqs bone air).map (·.1)) := by
    unfold specMeanAbg commonCanon
    rw [abgPairsOver_fst]
  constructor
  · constructor
    · intro hsome
      unfold emitSide at hsome
      by_cases hba : bone ≠ [] ∧ air ≠ []
      · rw [if_pos hba] at hsome
        rcases hm : listMean ((abgPairsOver canonFreqs bone air).map (·.1)) with _ | m
        · rw [hm] at hsome
          simp at hsome
        · have hne : (abgPairsOver canonFreqs bone air).map (·.1) ≠ [] := by
            rw [← listMean_isSome, hm]
            rfl
          have : abgPairsOver canonFreqs bone air ≠ [] := by
            intro h0
            apply hne
            rw [h0]
            rfl
          exact (abgPairsOver_ne_nil_iff canonFreqs bone air).mp this
      · rw [if_neg hba] at hsome
        simp at hsome
    · rintro ⟨f, hf, hb, ha⟩
      have hba : bone ≠ [] ∧ air ≠ [] :=
        ⟨dictLookup_ne_nil bone f hb, dictLookup_ne_nil air f ha⟩
      have hpairs : abgPairsOver canonFreqs bone air ≠ [] :=
        (abgPairsOver_ne_nil_iff canonFreqs bone air).mpr ⟨f, hf, hb, ha⟩
      have hmap : (abgPairsOver canonFreqs bone air).map (·.1) ≠ [] := by
        intro h0
        exact hpairs (List.map_eq_nil_iff.mp h0)
      obtain ⟨m, hm⟩ :=
        Option.isSome_iff_exists.mp ((listMean_isSome _).mpr hmap)
      unfold emitSide
      rw [if_pos hba, hm]
      rfl
  · intro m abgs fs hsome
    unfold emitSide at hsome
    by_cases hba : bone ≠ [] ∧ air ≠ []
    · rw [if_pos hba] at hsome
      rcases hm : listMean ((abgPairsOver canonFreqs bone air).map (·.1)) with _ | m'
      · rw [hm] at hsome
        cases hsome
      · rw [hm] at hsome
        injection hsome with h1
        rw [Prod.mk.injEq, Prod.mk.injEq] at h1
        obtain ⟨h1a, h1b, h1c⟩ := h1
        constructor
        · rw [hspec, hm, h1a]
        · unfold commonCanon
          rw [← h1b, abgPairsOver_fst]
    · rw [if_neg hba] at hsome
      cases hsome

/-- Witness for C4: bone = {0.5: 10, 1: 20}, air = {0.5: 30, 1: 50, 2: 70}
emit a record with meanAbg = 25 (2 kHz is excluded, not treated as zero),
and the emission condition holds at the common frequency 0.5. -/
theorem C4_record_iff_common_canonical_witness :
    emitSide [(mkRat 1 2, 10), (1, 20)] [(mkRat 1 2, 30), (1, 50), (2, 70)] =
      some (25, [20, 30], [500, 1000]) ∧
    specMeanAbg [(mkRat 1 2, 10), (1, 20)] [(mkRat 1 2, 30), (1, 50), (2, 70)] = some 25 ∧
    (emitSide [(mkRat 1 2, 10), (1, 20)] [(mkRat 1 2, 30), (1, 50), (2, 70)]).isSome = true :=
  ⟨by decide, by decide,
    (C4_record_iff_common_canonical [(mkRat 1 2, 10), (1, 20)]
        [(mkRat 1 2, 30), (1, 50), (2, 70)]).1.mpr
      ⟨mkRat 1 2, by decide, by decide, by decide⟩⟩

/-- Claim C5: the patient-record parser is failure-tolerant.  Every fallible
step of the source sits inside a per-token `except: pass` or a per-block
`try/except: continue`, so the embedding `loadAllPatientAbg` is a total
function — no exception reaches the caller.  Moreover: (1) a block lacking
the pre-operative marker is skipped and contributes no records; (2) a token
whose value is the literal `nan` yields no entry; (3) a token whose value
fails to parse yields no entry; (4) parsing continues with the next token
after a discarded one; (5) a document with one well-formed patient block and
one block lacking the pre-operative marker yields exactly one record. -/
theorem C5_tolerant_parsing :
    (∀ b : Str, pyIn (strLit "[수술전]") b = false → processBlock b = []) ∧
    parseToken (strLit " 0.5kHz=nandB") = none ∧
    parseToken (strLit " 0.5kHz=abcdB") = none ∧
    parse_line (strLit "R_B 0.5kHz=nandB | 1kHz=30dB") (strLit "R_B") = [(1, 30)] ∧
    loadAllPatientAbg (strLit "HEADER\n━━━\n【환자 P1】\n[수술전]\nR_B 0.25kHz=10dB | 0.5kHz=20dB\nR_A 0.25kHz=30dB | 0.5kHz=60dB\n└ xx\n━━━\n【환자 P2】\nno preop marker here\n") =
      [⟨strLit "P1_R", 30, [20, 40], [250, 500]⟩] := by
  refine ⟨?_, ?_, ?_, ?_, ?_⟩
  · intro b h
    unfold processBlock
    rw [if_neg]
    simp [h]
  · decide
  · decide
  · decide
  · set_option maxRecDepth 10000 in decide

/-- Witness for C5: the skip rule applied to a concrete block without the
pre-operative marker, together with the one-record document scenario. -/
theorem C5_tolerant_parsing_witness :
    processBlock (strLit "P2】\nno preop marker here\n") = [] ∧
    loadAllPatientAbg (strLit "HEADER\n━━━\n【환자 P1】\n[수술전]\nR_B 0.25kHz=10dB | 0.5kHz=20dB\nR_A 0.25kHz=30dB | 0.5kHz=60dB\n└ xx\n━━━\n【환자 P2】\nno preop marker here\n") =
      [⟨strLit "P1_R", 30, [20, 40], [250, 500]⟩] :=
  ⟨C5_tolerant_parsing.1 (strLit "P2】\nno preop marker here\n") (by decide),
    C5_tolerant_parsing.2.2.2.2⟩

/-- Claim C9 counterexample.  First part: when the `【 CWD` marker precedes the
`【 ICW` marker, the ICW slice (everything after `【 ICW`) and the CWD slice
(everything after the first `【 CWD`) overlap, and the document's single
patient block (side R of patient A) is parsed into BOTH groups — the two
record sets are not disjoint.  Second part: the group parser's per-block
extraction is not identical to the full-document parser's: on a block with
two bone-conduction lines the full parser keeps only the last line
(`bone = parse_line(...)` replaces the dict, giving mean ABG 10) while the
group parser accumulates both lines (`target[freq] = ...` mutates, giving
mean ABG 15). -/
theorem C9_cex_overlap_and_accumulation :
    loadPatientByGroup (strLit "【 CWD】\n【 ICW】\n━━\n【환자 A】\n[수술전]\nR_B 1kHz=10dB\nR_A 1kHz=30dB\n└\n") =
      ([⟨20, [20]⟩], [⟨20, [20]⟩]) ∧
    ((splitBlocks (strLit "【 CWD】\n【 ICW】\n━━\n【환자 A】\n[수술전]\nR_B 1kHz=10dB\nR_A 1kHz=30dB\n└\n")).drop 1).length = 1 ∧
    (processBlock (strLit "B】\n[수술전]\nR_B 1kHz=10dB | 2kHz=10dB\nR_B 1kHz=20dB\nR_A 1kHz=30dB | 2kHz=30dB\n└\n")).map (·.avg_abg) = [10] ∧
    (groupBlock (strLit "B】\n[수술전]\nR_B 1kHz=10dB | 2kHz=10dB\nR_B 1kHz=20dB\nR_A 1kHz=30dB | 2kHz=30dB\n└\n")).map (·.avg_abg) = [15] := by
  refine ⟨?_, ?_, ?_, ?_⟩ <;> set_option maxRecDepth 10000 in decide

/-- Claim C9 as amended: both groups are produced by the one shared per-block
extraction `groupOfSection`, and the two record sets come from disjoint parts
of the document PROVIDED the canonical layout holds: the document is
`A ++ 【 ICW ++ B ++ 【 CWD ++ C` with each marker occurring exactly once and
ICW before CWD (stated operationally through the three split equations).
Then the ICW records are extracted exactly from the segment `B` between the
markers and the CWD records exactly from the segment `C` after the CWD
marker, so no patient block contributes to both groups. -/
theorem C9_sections_disjoint_when_ordered (content A B C : Str)
    (_hcontent : content = A ++ icwMark ++ B ++ cwdMark ++ C)
    (h1 : pyIn icwMark content = true) (h2 : pyIn cwdMark content = true)
    (hA : pySplit icwMark content = [A, B ++ cwdMark ++ C])
    (hB : pySplit cwdMark (B ++ cwdMark ++ C) = [B, C])
    (hC : pySplit cwdMark content = [A ++ icwMark ++ B, C]) :
    icwSection content = some B ∧ cwdSection content = some C ∧
    loadPatientByGroup content = (groupOfSection B, groupOfSection C) := by
  have hicw : icwSection content = some B := by
    unfold icwSection
    rw [if_pos h1, if_pos h2, hA]
    simp only [pyIndex, List.getD_cons_succ, List.getD_cons_zero]
    rw [hB]
    simp only [List.getD_cons_zero]
  have hcwd : cwdSection content = some C := by
    unfold cwdSection
    rw [if_pos h2, hC]
    simp only [pyIndex, List.getD_cons_succ, List.getD_cons_zero]
  refine ⟨hicw, hcwd, ?_⟩
  unfold loadPatientByGroup
  rw [hicw, hcwd]

/-- Witness for the amended C9: a canonical two-section document; the ICW
group is extracted from the segment between the markers (one record, mean
ABG 20) and the CWD group from the segment after the CWD marker (one record,
mean ABG 40). -/
theorem C9_sections_disjoint_when_ordered_witness :
    loadPatientByGroup (strLit "head\n【 ICW】\n━━\n【환자 A】\n[수술전]\nR_B 1kHz=10dB\nR_A 1kHz=30dB\n└\n【 CWD】\n━━\n【환자 B】\n[수술전]\nR_B 1kHz=10dB\nR_A 1kHz=50dB\n└\n") =
      (groupOfSection (strLit "】\n━━\n【환자 A】\n[수술전]\nR_B 1kHz=10dB\nR_A 1kHz=30dB\n└\n"),
       groupOfSection (strLit "】\n━━\n【환자 B】\n[수술전]\nR_B 1kHz=10dB\nR_A 1kHz=50dB\n└\n")) ∧
    groupOfSection (strLit "】\n━━\n【환자 A】\n[수술전]\nR_B 1kHz=10dB\nR_A 1kHz=30dB\n└\n") =
      [⟨20, [20]⟩] ∧
    groupOfSection (strLit "】\n━━\n【환자 B】\n[수술전]\nR_B 1kHz=10dB\nR_A 1kHz=50dB\n└\n") =
      [⟨40, [40]⟩] :=
  ⟨(C9_sections_disjoint_when_ordered
      (strLit "head\n【 ICW】\n━━\n【환자 A】\n[수술전]\nR_B 1kHz=10dB\nR_A 1kHz=30dB\n└\n【 CWD】\n━━\n【환자 B】\n[수술전]\nR_B 1kHz=10dB\nR_A 1kHz=50dB\n└\n")
      (strLit "head\n")
      (strLit "】\n━━\n【환자 A】\n[수술전]\nR_B 1kHz=10dB\nR_A 1kHz=30dB\n└\n")
      (strLit "】\n━━\n【환자 B】\n[수술전]\nR_B 1kHz=10dB\nR_A 1kHz=50dB\n└\n")
      (by set_option maxRecDepth 10000 in decide)
      (by set_option maxRecDepth 10000 in decide)
      (by set_option maxRecDepth 10000 in decide)
      (by set_option maxRecDepth 10000 in decide)
      (by set_option maxRecDepth 10000 in decide)
      (by set_option maxRecDepth 10000 in decide)).2.2,
    by set_option maxRecDepth 10000 in decide,
    by set_option maxRecDepth 10000 in decide⟩
